import Mathlib

/-!
Verification development for the lead-enrichment pipeline in
`enrich_leads.py`.  Python strings are embedded as `List Char`; the
functions below are line-by-line translations of the source functions
they are named after.
-/

namespace CrawlScraper

/-- Embed a Lean string literal as a Python-style character list. -/
def S (s : String) : List Char := s.data

/-- Python `str.startswith`. -/
def pstarts : List Char → List Char → Bool
  | [], _ => true
  | _ :: _, [] => false
  | p :: ps, c :: cs => p == c && pstarts ps cs

/-- Python `str.endswith`. -/
def pends (suf s : List Char) : Bool := pstarts suf.reverse s.reverse

/-- Python substring containment, `needle in hay`. -/
def containsSub (needle : List Char) : List Char → Bool
  | [] => pstarts needle []
  | c :: t => pstarts needle (c :: t) || containsSub needle t

/-- Python `str.lower` (ASCII, as used by the source). -/
def lowerStr (s : List Char) : List Char := s.map Char.toLower

/-- Python `str.upper` (ASCII, as used by the source). -/
def upperStr (s : List Char) : List Char := s.map Char.toUpper

/-- Python `str.strip()` with no argument: drop whitespace on both ends. -/
def pstrip (s : List Char) : List Char :=
  ((s.dropWhile Char.isWhitespace).reverse.dropWhile Char.isWhitespace).reverse

/-- Python `str.rstrip('/')`: drop every trailing slash. -/
def rstripSlash (s : List Char) : List Char :=
  (s.reverse.dropWhile (· = '/')).reverse

/-- Digit string to number, used to model Python `int(...)` on digit input. -/
def natFromDigits (s : List Char) : Nat :=
  s.foldl (fun acc c => acc * 10 + (c.toNat - '0'.toNat)) 0

/-- Model of Python `int(header)` for a Retry-After header: surrounding
whitespace is tolerated and a plain digit run parses; anything else
raises, which the source's `except` turns into the backoff value. -/
def pyIntNat? (s : List Char) : Option Nat :=
  let t := pstrip s
  if t.isEmpty then none
  else if t.all Char.isDigit then some (natFromDigits t) else none

/-! ### Crawl planner (source lines 1034-1088, duplicated at 659-701 and 843-885) -/

/-- `normalize_url` from the source: resolve a discovered link against the
base URL, handling the three slash-boundary cases. -/
def normalize_url (link_url base : List Char) : List Char :=
  if pstarts (S "http") link_url then link_url
  else if !pends (S "/") base && !pstarts (S "/") link_url then base ++ (S "/" ++ link_url)
  else if pends (S "/") base && pstarts (S "/") link_url then base ++ link_url.drop 1
  else base ++ link_url

/-- The fixed keyword table (`keywords` in the source) used to classify
internal links into the priority tier. -/
def planKeywords : List (List Char × List (List Char)) :=
  [ (S "contact", [S "contato", S "contact", S "fale", S "atendimento"]),
    (S "about", [S "sobre", S "about", S "quem-somos", S "institucional", S "empresa",
      S "imobiliaria"]),
    (S "services", [S "servicos", S "services", S "produtos", S "products", S "imoveis"]) ]

/-- A lowered href is priority when any category keyword occurs in it
(the source's loop with `break` computes exactly this disjunction). -/
def isPriorityLink (lower_href : List Char) : Bool :=
  planKeywords.any (fun kw => kw.2.any (fun w => containsSub w lower_href))

/-- State of the internal-link pass: the `unique_internal_urls` set
(modelled as the list of inserted urls), `priority_links`, `other_links`. -/
structure PlanState where
  seen : List (List Char)
  priority : List (List Char)
  others : List (List Char)
deriving DecidableEq

/-- One iteration of the internal-link loop: skip empty hrefs, normalize,
skip urls already seen or equal to the lead's own root up to trailing
slashes, then classify into priority or others. -/
def planStep (base : List Char) (st : PlanState) (href : List Char) : PlanState :=
  if href = [] then st
  else if normalize_url href base ∈ st.seen
      ∨ rstripSlash (normalize_url href base) = rstripSlash base then st
  else if isPriorityLink (lowerStr href) then
    ⟨normalize_url href base :: st.seen, st.priority ++ [normalize_url href base], st.others⟩
  else
    ⟨normalize_url href base :: st.seen, st.priority, st.others ++ [normalize_url href base]⟩

/-- The whole internal-link pass over the discovered hrefs. -/
def buildCrawlPlan (base : List Char) (hrefs : List (List Char)) : PlanState :=
  hrefs.foldl (planStep base) ⟨[], [], []⟩

/-- `final_crawl_list = priority_links + other_links`. -/
def final_crawl_list (st : PlanState) : List (List Char) :=
  st.priority ++ st.others

/-- Invariant carried by the internal-link pass: the crawl list is
duplicate-free, covered by the seen set, and avoids the lead's root. -/
def planInv (base : List Char) (st : PlanState) : Prop :=
  (st.priority ++ st.others).Nodup
  ∧ (∀ u, u ∈ st.priority ++ st.others → u ∈ st.seen)
  ∧ (∀ u, u ∈ st.priority ++ st.others → rstripSlash u ≠ rstripSlash base)

/-! ### WhatsApp deep-link heuristic (source lines 325-347) -/

/-- `detect_whatsapp` from the source: keep only digits, then build a
link for 11-digit numbers (prepending the country code 55) and for
13-digit numbers that already start with 55. -/
def detect_whatsapp (phone : List Char) : Option (List Char) :=
  if phone = [] then none
  else
    let digits := phone.filter Char.isDigit
    if digits.length = 11 then some (S "https://wa.me/55" ++ digits)
    else if digits.length = 10 then none
    else if 12 ≤ digits.length ∧ pstarts (S "55") digits then
      if digits.length = 13 then some (S "https://wa.me/" ++ digits) else none
    else none

/-! ### Tax-identifier extraction (source lines 100-207)

The source uses `re.search` on a fixed set of simple patterns.  Each
pattern is a sequence of counted character classes, optionally wrapped in
a digit negative lookbehind and lookahead (the only lookarounds that
occur, in the GB and PT entries, and there only around fixed-length
runs).  The matcher below implements `re.search` semantics for this
fragment: leftmost start position wins, and at a given position the
repetition counts are tried greedily from the maximum down. -/

/-- A character class of the pattern fragment used by the source. -/
inductive CharSpec where
  | digit
  | space
  | upperAlpha
  | upperAlnum
  | lit (c : Char)
deriving DecidableEq

/-- Whether a character matches a class; `ci` is `re.IGNORECASE`. -/
def specMatches (ci : Bool) (sp : CharSpec) (c : Char) : Bool :=
  match sp with
  | .digit => c.isDigit
  | .space => c = ' ' || c = '\t' || c = '\n' || c = '\r'
  | .upperAlpha => if ci then c.isAlpha else decide ('A' ≤ c) && decide (c ≤ 'Z')
  | .upperAlnum => (if ci then c.isAlpha else decide ('A' ≤ c) && decide (c ≤ 'Z')) || c.isDigit
  | .lit ch => c = ch || (ci && (c.toLower = ch.toLower))

/-- One pattern element: a class with a repetition range. -/
abbrev RItem := CharSpec × Nat × Nat

/-- A whole pattern: optional digit negative lookbehind, the element
sequence, optional digit negative lookahead. -/
structure Rgx where
  nlb : Bool
  items : List RItem
  nla : Bool
deriving DecidableEq

/-- Consume exactly `n` characters matching `sp`, returning the rest. -/
def consumeSpec (ci : Bool) (sp : CharSpec) : Nat → List Char → Option (List Char)
  | 0, s => some s
  | _ + 1, [] => none
  | n + 1, c :: cs => if specMatches ci sp c then consumeSpec ci sp n cs else none

/-- Repetition counts from `hi` down to `lo` (greedy priority). -/
def countsDesc (lo hi : Nat) : List Nat :=
  (List.range (hi + 1 - lo)).map (fun d => hi - d)

/-- Match the element sequence at the start of `s`, returning the number
of characters consumed; counts are tried greedily with backtracking. -/
def seqFuel (ci : Bool) : Nat → List RItem → List Char → Option Nat
  | 0, _, _ => none
  | _ + 1, [], _ => some 0
  | fuel + 1, (sp, lo, hi) :: rest, s =>
    (countsDesc lo hi).findSome? (fun k =>
      match consumeSpec ci sp k s with
      | some s' => (seqFuel ci fuel rest s').map (fun m => k + m)
      | none => none)

/-- Entry point with enough fuel for the whole element list. -/
def seqMatch (ci : Bool) (items : List RItem) (s : List Char) : Option Nat :=
  seqFuel ci (items.length + 1) items s

/-- Does the remaining text start with a digit (for the lookahead)? -/
def headIsDigit : List Char → Bool
  | [] => false
  | c :: _ => c.isDigit

/-- Try the pattern at one position; `prev` is the character just before
the position, for the lookbehind. -/
def matchAt (ci : Bool) (rg : Rgx) (prev : Option Char) (s : List Char) : Option (List Char) :=
  if rg.nlb && (match prev with | some c => c.isDigit | none => false) then none
  else
    match seqMatch ci rg.items s with
    | some n => if rg.nla && headIsDigit (s.drop n) then none else some (s.take n)
    | none => none

/-- Scan positions left to right; the first position with a match wins. -/
def rsearchAux (ci : Bool) (rg : Rgx) (prev : Option Char) : List Char → Option (List Char)
  | [] => matchAt ci rg prev []
  | c :: t =>
    match matchAt ci rg prev (c :: t) with
    | some m => some m
    | none => rsearchAux ci rg (some c) t

/-- `re.search(pattern, s)` returning `match.group(0)`. -/
def rsearch (ci : Bool) (rg : Rgx) (s : List Char) : Option (List Char) :=
  rsearchAux ci rg none s

/-- A digit run of exact length `n`. -/
def rDigit (n : Nat) : RItem := (.digit, n, n)

/-- A single literal character. -/
def rLit (c : Char) : RItem := (.lit c, 1, 1)

/-- The BR entry's pattern `\d{2}\.\d{3}\.\d{3}/\d{4}-\d{2}`. -/
def brPattern : Rgx :=
  ⟨false, [rDigit 2, rLit '.', rDigit 3, rLit '.', rDigit 3, rLit '/', rDigit 4, rLit '-',
    rDigit 2], false⟩

/-- The generic EU VAT fallback `[A-Z]{2}\d{9,12}`. -/
def genericVatPattern : Rgx := ⟨false, [(.upperAlpha, 2, 2), (.digit, 9, 12)], false⟩

/-- One entry of the country pattern table. -/
structure TaxEntry where
  rgx : Rgx
  ttype : List Char
  tname : List Char
deriving DecidableEq

/-- The `patterns` table of `extract_tax_id`, country code by country code. -/
def taxPatterns : List (List Char × TaxEntry) :=
  [ (S "BR", ⟨brPattern, S "CNPJ", S "Cadastro Nacional da Pessoa Jurídica"⟩),
    (S "US", ⟨⟨false, [rDigit 2, rLit '-', rDigit 7], false⟩, S "EIN",
      S "Employer Identification Number"⟩),
    (S "GB", ⟨⟨true, [rDigit 8], true⟩, S "Company Number",
      S "UK Company Registration Number"⟩),
    (S "AU", ⟨⟨false, [rDigit 2, (.space, 0, 1), rDigit 3, (.space, 0, 1), rDigit 3,
      (.space, 0, 1), rDigit 3], false⟩, S "ABN", S "Australian Business Number"⟩),
    (S "MX", ⟨⟨false, [(.upperAlpha, 3, 4), rDigit 6, (.upperAlnum, 3, 3)], false⟩, S "RFC",
      S "Registro Federal de Contribuyentes"⟩),
    (S "AR", ⟨⟨false, [rDigit 2, rLit '-', rDigit 8, rLit '-', rDigit 1], false⟩, S "CUIT",
      S "Clave Única de Identificación Tributaria"⟩),
    (S "PT", ⟨⟨true, [rDigit 9], true⟩, S "NIF", S "Número de Identificação Fiscal"⟩),
    (S "DE", ⟨⟨false, [rLit 'D', rLit 'E', rDigit 9], false⟩, S "VAT",
      S "Umsatzsteuer-Identifikationsnummer"⟩),
    (S "FR", ⟨⟨false, [rLit 'F', rLit 'R', rDigit 11], false⟩, S "VAT",
      S "Numéro de TVA intracommunautaire"⟩),
    (S "ES", ⟨⟨false, [rLit 'E', rLit 'S', (.upperAlnum, 1, 1), rDigit 7, (.upperAlnum, 1, 1)],
      false⟩, S "NIF/CIF", S "Número de Identificación Fiscal"⟩),
    (S "IT", ⟨⟨false, [rLit 'I', rLit 'T', rDigit 11], false⟩, S "VAT", S "Partita IVA"⟩),
    (S "CA", ⟨⟨false, [rDigit 9, (.upperAlpha, 2, 2), rDigit 4], false⟩, S "BN",
      S "Business Number"⟩) ]

/-- Dictionary lookup `patterns[country_code.upper()]`. -/
def lookupPattern (cc : List Char) : Option TaxEntry :=
  (taxPatterns.find? (fun e => e.1 == cc)).map (·.2)

/-- The structured result of `extract_tax_id`. -/
structure TaxId where
  ttype : List Char
  value : List Char
  country : List Char
  tname : List Char
deriving DecidableEq

/-- Python truthiness of the optional `country_code` argument. -/
def ccTruthy : Option (List Char) → Bool
  | none => false
  | some s => !s.isEmpty

/-- `extract_tax_id` from the source: try the hinted country's pattern
first (with `re.IGNORECASE`); then, only when no truthy hint was given or
the hint is BR, the BR pattern; finally the generic VAT pattern on the
uppercased text. -/
def extract_tax_id (text : List Char) (country_code : Option (List Char)) : Option TaxId :=
  if text = [] then none
  else
    let hinted : Option TaxId :=
      if ccTruthy country_code then
        match country_code with
        | some cc =>
          match lookupPattern (upperStr cc) with
          | some e =>
            match rsearch true e.rgx text with
            | some v => some ⟨e.ttype, v, upperStr cc, e.tname⟩
            | none => none
          | none => none
        | none => none
      else none
    match hinted with
    | some r => some r
    | none =>
      let brTry : Option TaxId :=
        if !ccTruthy country_code || (country_code.map upperStr == some (S "BR")) then
          match rsearch false brPattern text with
          | some v => some ⟨S "CNPJ", v, S "BR", S "Cadastro Nacional da Pessoa Jurídica"⟩
          | none => none
        else none
      match brTry with
      | some r => some r
      | none =>
        match rsearch false genericVatPattern (upperStr text) with
        | some v => some ⟨S "VAT", v, v.take 2, S "VAT Number"⟩
        | none => none

/-! ### Hunter.io email discovery (source lines 349-399)

The HTTP exchange is embedded as a function from the attempt index to the
response the service would give to that request, and the deliverability
check (`verify_email_address`, an external service) as a parameter.  The
outcome records the returned emails, the number of requests issued and
the sleep durations performed, in order. -/

/-- One response of the email-discovery service. -/
structure HunterResp where
  status : Nat
  retryAfter : Option (List Char)
  emails : List (List Char)

/-- Observable outcome of `fetch_hunter_emails`. -/
structure HunterOutcome where
  emails : List (List Char)
  requests : Nat
  sleeps : List Nat
deriving DecidableEq

/-- The sleep before a retry: `int(retry_after) if retry_after else
2 ** attempts`, with the `except` fallback to the backoff. -/
def waitSeconds (ra : Option (List Char)) (attempts : Nat) : Nat :=
  match ra with
  | some s => if s.isEmpty then 2 ^ attempts else (pyIntNat? s).getD (2 ^ attempts)
  | none => 2 ^ attempts

/-- The retry loop of `fetch_hunter_emails`; `a` is the number of
attempts already made and `fuel` the attempts remaining out of the fixed
maximum of 3.  On 200 the raw emails are validated and returned; on 429
the loop sleeps and retries; any other status aborts with an empty
result; running out of attempts also yields an empty result. -/
def hunterLoop (verify : List Char → Option (List Char)) (resps : Nat → HunterResp) :
    Nat → Nat → HunterOutcome
  | _, 0 => ⟨[], 0, []⟩
  | a, fuel + 1 =>
    let r := resps a
    if r.status = 200 then ⟨r.emails.filterMap verify, 1, []⟩
    else if r.status = 429 then
      let w := waitSeconds r.retryAfter (a + 1)
      let rest := hunterLoop verify resps (a + 1) fuel
      ⟨rest.emails, rest.requests + 1, w :: rest.sleeps⟩
    else ⟨[], 1, []⟩

/-- The `BLACKLIST_DOMAINS` of the source. -/
def hunterBlacklist : List (List Char) :=
  [S "instagram.com", S "facebook.com", S "linkedin.com", S "linktr.ee", S "twitter.com",
    S "youtube.com", S "tiktok.com"]

/-- `any(b in domain for b in BLACKLIST_DOMAINS)`. -/
def hunterBlacklisted (domain : List Char) : Bool :=
  hunterBlacklist.any (fun b => containsSub b domain)

/-- `fetch_hunter_emails`: known social domains are skipped outright,
otherwise the retry loop runs with at most 3 attempts. -/
def fetch_hunter_emails (verify : List Char → Option (List Char)) (domain : List Char)
    (resps : Nat → HunterResp) : HunterOutcome :=
  if hunterBlacklisted domain then ⟨[], 0, []⟩
  else hunterLoop verify resps 0 3

/-! ### The fused profile and `clean_recursive` (source lines 1180-1191)

JSON values are embedded as a mutual inductive so that the recursive
scrub and its invariants can be proved by mutual structural induction. -/

mutual
/-- A JSON value as produced by the fusion step. -/
inductive Json where
  | null : Json
  | boolean : Bool → Json
  | number : Int → Json
  | str : List Char → Json
  | arr : JArr → Json
  | obj : JObj → Json
/-- A JSON array. -/
inductive JArr where
  | nil : JArr
  | cons : Json → JArr → JArr
/-- A JSON object: key/value pairs in order. -/
inductive JObj where
  | nil : JObj
  | cons : List Char → Json → JObj → JObj
end

deriving instance DecidableEq for Json

/-- Does a string contain the reserved pending token, `"Pendente" in v`? -/
def hasPendente (s : List Char) : Bool := containsSub (S "Pendente") s

mutual
/-- `clean_recursive` on a value: dictionaries have their items rewritten,
lists have the scrub applied to each element, and any other value —
including a bare string — is left as is (the source's function body
only acts on `dict` and `list` arguments). -/
def clean_recursive : Json → Json
  | .obj kvs => .obj (cleanObj kvs)
  | .arr xs => .arr (cleanArr xs)
  | j => j
/-- `clean_recursive` over the elements of a list: the source calls
itself on each element, which changes nothing when the element is a
string, even one containing the token. -/
def cleanArr : JArr → JArr
  | .nil => .nil
  | .cons x xs => .cons (clean_recursive x) (cleanArr xs)
/-- The dictionary items loop: a string value containing the token is
replaced by `None`; any other value is scrubbed recursively. -/
def cleanObj : JObj → JObj
  | .nil => .nil
  | .cons k (.str s) rest =>
    .cons k (if hasPendente s then Json.null else Json.str s) (cleanObj rest)
  | .cons k v rest => .cons k (clean_recursive v) (cleanObj rest)
end

mutual
/-- No dictionary value reachable through dictionaries and lists is a
string containing the token (the property the scrub establishes). -/
def tokenFreeDV : Json → Bool
  | .obj kvs => tokenFreeDVObj kvs
  | .arr xs => tokenFreeDVArr xs
  | _ => true
/-- `tokenFreeDV` over list elements. -/
def tokenFreeDVArr : JArr → Bool
  | .nil => true
  | .cons x xs => tokenFreeDV x && tokenFreeDVArr xs
/-- `tokenFreeDV` over dictionary items. -/
def tokenFreeDVObj : JObj → Bool
  | .nil => true
  | .cons _ (.str s) rest => !hasPendente s && tokenFreeDVObj rest
  | .cons _ v rest => tokenFreeDV v && tokenFreeDVObj rest
end

mutual
/-- No string anywhere in the value contains the token. -/
def tokenFreeAll : Json → Bool
  | .str s => !hasPendente s
  | .obj kvs => tokenFreeAllObj kvs
  | .arr xs => tokenFreeAllArr xs
  | _ => true
/-- `tokenFreeAll` over list elements. -/
def tokenFreeAllArr : JArr → Bool
  | .nil => true
  | .cons x xs => tokenFreeAll x && tokenFreeAllArr xs
/-- `tokenFreeAll` over dictionary items. -/
def tokenFreeAllObj : JObj → Bool
  | .nil => true
  | .cons _ v rest => tokenFreeAll v && tokenFreeAllObj rest
end

/-! ### Queue readers (source lines 49-87) -/

/-- `iter_jsonl_objects`: one pass over a finished JSONL file, skipping
blank lines, the sentinel and unparsable lines.  `parse` stands for
`json.loads`, with `none` for a parse failure. -/
def iter_jsonl_objects {α : Type} (parse : List Char → Option α)
    (lines : List (List Char)) : List α :=
  lines.filterMap (fun l =>
    if pstrip l = [] ∨ pstrip l = S "__END__" then none
    else parse (pstrip l))

/-- `iter_jsonl_lines_follow`: the tail-follow loop over the lines the
file eventually holds.  The boolean records whether the loop returned
(it does so only on the sentinel); with the line supply exhausted and no
sentinel seen, the real loop sleeps and polls forever, reported here as
`false`. -/
def iter_jsonl_lines_follow {α : Type} (parse : List Char → Option α) :
    List (List Char) → List α × Bool
  | [] => ([], false)
  | l :: ls =>
    if pstrip l = [] then iter_jsonl_lines_follow parse ls
    else if pstrip l = S "__END__" then ([], true)
    else
      match parse (pstrip l) with
      | some v =>
        let r := iter_jsonl_lines_follow parse ls
        (v :: r.1, r.2)
      | none => iter_jsonl_lines_follow parse ls

/-! ### The per-run output accumulation in `main` (source lines 608-1213)

The whole per-lead pipeline (crawl, enrichment, fusion, post-processing)
is abstracted as `process : α → Option β`: `some` is a successfully
fused profile, `none` a dropped lead.  What is embedded concretely is
the control flow of `main` around it. -/

/-- Appending to `final_leads` when the fusion produced a profile. -/
def appendIfFused {α β : Type} (process : α → Option β) (acc : List β) (it : α) : List β :=
  match process it with
  | some p => acc ++ [p]
  | none => acc

/-- The stream branches' per-item loops: every yielded item is processed
fully, in order (source lines 615-796 and 799-982, whose bodies are
properly indented inside their `for`). -/
def streamRunLeads {α β : Type} (process : α → Option β) (leads : List α) : List β :=
  leads.foldl (appendIfFused process) []

/-- Stream mode as a whole: the backfill pass drains the file (line 615),
then the tail pass (line 799) opens the same path again and reads it from
offset 0, so it yields the already-drained lines once more before any
newly appended ones; both feeds are processed by the same per-lead logic. -/
def streamModeOutput {α β : Type} (parse : List Char → Option α) (process : α → Option β)
    (lines : List (List Char)) : List β :=
  streamRunLeads process
    (iter_jsonl_objects parse lines ++ (iter_jsonl_lines_follow parse lines).1)

/-- The loop-variable binding left over after the bounded branch's `for`
(source line 986): the loop body ends at line 988, so after it `item`
holds the last element. -/
def boundedLastItem {α : Type} (items : List α) : Option α :=
  items.foldl (fun _ it => some it) none

/-- Bounded (.json) mode output: the `for` body at lines 987-988 only
rebinds `base_url` and `hunter_emails`; the processing block at lines
990-1213 is dedented one level and therefore runs once, after the loop,
on the final loop-variable value.  (With an empty queue the real code
raises `NameError` on `base_url` and writes nothing; modelled as an
empty output.) -/
def boundedModeOutput {α β : Type} (process : α → Option β) (items : List α) : List β :=
  match boundedLastItem items with
  | none => []
  | some it => appendIfFused process [] it

/-- A raw lead record, reduced to the fields the website check reads. -/
structure Lead where
  nome : List Char
  website : Option (List Char)
deriving DecidableEq

/-- The website-validity check of `main`: `base_url` truthy, not
containing "google.com", and not the literal "Não disponível". -/
def hasWebsite (item : Lead) : Bool :=
  match item.website with
  | none => false
  | some w => !w.isEmpty && !containsSub (S "google.com") w && !(w == S "Não disponível")

/-! ### End-of-run effects (source lines 581 and 1215-1227) -/

/-- The externally visible end-of-run file operations. -/
inductive RunEff where
  | writeOutput
  | deleteInput
deriving DecidableEq

/-- `stream_mode = json_file.lower().endswith('.jsonl')` (line 581). -/
def stream_mode (json_file : List Char) : Bool :=
  pends (S ".jsonl") (lowerStr json_file)

/-- After the crawl loop, `main` always writes the output array, then
deletes the input file only when not in stream mode and the file still
exists (lines 1217-1224). -/
def end_of_run_effects (json_file : List Char) (input_exists : Bool) : List RunEff :=
  RunEff.writeOutput ::
    (if stream_mode json_file = false ∧ input_exists = true then [RunEff.deleteInput] else [])

/-! ## Theorems -/

/-- A prefix of a string is a prefix of any extension of it. -/
theorem pstarts_append (p : List Char) :
    ∀ b x, pstarts p b = true → pstarts p (b ++ x) = true := by
  induction p with
  | nil => intro b x _; rfl
  | cons a ps ih =>
    intro b x h
    cases b with
    | nil => simp [pstarts] at h
    | cons c bs =>
      simp only [pstarts, List.cons_append, Bool.and_eq_true, beq_iff_eq] at h ⊢
      exact ⟨h.1, ih bs x h.2⟩

/-- Normalization never loses the scheme: when the base URL starts with
"http", so does every normalized URL. -/
theorem normalize_keeps_http (link base : List Char)
    (h : pstarts (S "http") base = true) :
    pstarts (S "http") (normalize_url link base) = true := by
  unfold normalize_url
  split
  · assumption
  · split
    · exact pstarts_append _ _ _ h
    · split
      · exact pstarts_append _ _ _ h
      · exact pstarts_append _ _ _ h

/-- C7: URL normalization is idempotent — for every base URL beginning
with the http scheme and every link, normalizing the already-normalized
result against the same base returns it unchanged. -/
theorem c7_normalize_idem (link base : List Char)
    (h : pstarts (S "http") base = true) :
    normalize_url (normalize_url link base) base = normalize_url link base := by
  have hh := normalize_keeps_http link base h
  conv_lhs => rw [normalize_url]
  simp [hh]

/-- C7 witness: idempotence at a concrete base and link. -/
theorem c7_normalize_idem_witness :
    pstarts (S "http") (S "http://a.com") = true
    ∧ normalize_url (normalize_url (S "contact") (S "http://a.com")) (S "http://a.com")
        = normalize_url (S "contact") (S "http://a.com") :=
  ⟨by decide, c7_normalize_idem (S "contact") (S "http://a.com") (by decide)⟩

/-- C8: a WhatsApp deep-link is produced exactly for an 11-digit number
(link with the national prefix 55 prepended) or a 13-digit number that
starts with 55 (link with the digits verbatim); every other phone string
yields no link. -/
theorem c8_whatsapp (phone link : List Char) :
    detect_whatsapp phone = some link ↔
      ((phone.filter Char.isDigit).length = 11
        ∧ link = S "https://wa.me/55" ++ phone.filter Char.isDigit)
      ∨ ((phone.filter Char.isDigit).length = 13
        ∧ pstarts (S "55") (phone.filter Char.isDigit) = true
        ∧ link = S "https://wa.me/" ++ phone.filter Char.isDigit) := by
  unfold detect_whatsapp
  by_cases hp : phone = []
  · subst hp; simp
  · simp only [if_neg hp]
    split_ifs with h11 h10 h1255 h13
    · simp only [Option.some_inj]
      constructor
      · intro hl; exact Or.inl ⟨h11, hl.symm⟩
      · rintro (⟨_, hl⟩ | ⟨h13', _, _⟩)
        · exact hl.symm
        · omega
    · simp only [false_iff]
      rintro (⟨h, _⟩ | ⟨h, _, _⟩) <;> omega
    · simp only [Option.some_inj]
      constructor
      · intro hl; exact Or.inr ⟨h13, h1255.2, hl.symm⟩
      · rintro (⟨h, _⟩ | ⟨_, _, hl⟩)
        · omega
        · exact hl.symm
    · simp only [false_iff]
      rintro (⟨h, _⟩ | ⟨h, _, _⟩) <;> omega
    · simp only [false_iff]
      rintro (⟨h, _⟩ | ⟨h, hs, _⟩)
      · omega
      · exact h1255 ⟨by omega, hs⟩

/-- C10: in streaming (.jsonl) mode the consumed input file is left in
place; the end-of-run deletion happens only in bounded (.json) mode, and
there only after the output file has been written. -/
theorem c10_cleanup_mode (json_file : List Char) (input_exists : Bool) :
    (stream_mode json_file = true →
      end_of_run_effects json_file input_exists = [RunEff.writeOutput])
    ∧ (stream_mode json_file = false → input_exists = true →
      end_of_run_effects json_file input_exists
        = [RunEff.writeOutput, RunEff.deleteInput]) := by
  constructor
  · intro h; simp [end_of_run_effects, h]
  · intro h he; simp [end_of_run_effects, h, he]

/-- C10 witness: a streaming run keeps its queue file, a bounded run
deletes its input after the write. -/
theorem c10_cleanup_mode_witness :
    end_of_run_effects (S "leads.jsonl") true = [RunEff.writeOutput]
    ∧ end_of_run_effects (S "leads.json") true
        = [RunEff.writeOutput, RunEff.deleteInput] :=
  ⟨(c10_cleanup_mode (S "leads.jsonl") true).1 (by decide),
   (c10_cleanup_mode (S "leads.json") true).2 (by decide) rfl⟩

/-- One step of the internal-link loop preserves the plan invariant. -/
theorem planStep_inv (base : List Char) (st : PlanState) (href : List Char)
    (h : planInv base st) : planInv base (planStep base st href) := by
  obtain ⟨hnd, hseen, hroot⟩ := h
  unfold planStep
  split
  · exact ⟨hnd, hseen, hroot⟩
  split
  next hguard => exact ⟨hnd, hseen, hroot⟩
  next hguard =>
    push_neg at hguard
    obtain ⟨hnotseen, hnotroot⟩ := hguard
    have hnotmem : normalize_url href base ∉ st.priority ++ st.others := fun hm =>
      hnotseen (hseen _ hm)
    split
    · refine ⟨?_, ?_, ?_⟩
      · have : st.priority ++ [normalize_url href base] ++ st.others
            = st.priority ++ normalize_url href base :: st.others := by simp
        rw [this, List.nodup_middle]
        exact List.nodup_cons.mpr ⟨hnotmem, hnd⟩
      · intro u hu
        simp only [List.append_assoc, List.mem_append, List.mem_singleton] at hu
        rcases hu with hu | hu | hu
        · exact List.mem_cons_of_mem _ (hseen u (List.mem_append_left _ hu))
        · subst hu; exact List.mem_cons_self _ _
        · exact List.mem_cons_of_mem _ (hseen u (List.mem_append_right _ hu))
      · intro u hu
        simp only [List.append_assoc, List.mem_append, List.mem_singleton] at hu
        rcases hu with hu | hu | hu
        · exact hroot u (List.mem_append_left _ hu)
        · subst hu; exact hnotroot
        · exact hroot u (List.mem_append_right _ hu)
    · refine ⟨?_, ?_, ?_⟩
      · rw [← List.append_assoc, List.nodup_append]
        refine ⟨hnd, List.nodup_singleton _, ?_⟩
        intro u hu hu1
        rw [List.mem_singleton] at hu1
        subst hu1
        exact hnotmem hu
      · intro u hu
        rw [← List.append_assoc, List.mem_append, List.mem_singleton] at hu
        rcases hu with hu | hu
        · exact List.mem_cons_of_mem _ (hseen u hu)
        · subst hu; exact List.mem_cons_self _ _
      · intro u hu
        rw [← List.append_assoc, List.mem_append, List.mem_singleton] at hu
        rcases hu with hu | hu
        · exact hroot u hu
        · subst hu; exact hnotroot

/-- The whole internal-link pass preserves the plan invariant. -/
theorem planFold_inv (base : List Char) :
    ∀ (hrefs : List (List Char)) (st : PlanState), planInv base st →
      planInv base (hrefs.foldl (planStep base) st) := by
  intro hrefs
  induction hrefs with
  | nil => intro st h; exact h
  | cons a t ih => intro st h; exact ih _ (planStep_inv base st a h)

/-- C6: the crawl plan built from any list of discovered internal links
contains no normalized URL twice across the priority and general lists,
and never contains a URL whose normalized form equals the lead's own
root URL up to trailing slashes. -/
theorem c6_crawl_plan (base : List Char) (hrefs : List (List Char)) :
    (final_crawl_list (buildCrawlPlan base hrefs)).Nodup
    ∧ ∀ u, u ∈ final_crawl_list (buildCrawlPlan base hrefs) →
        rstripSlash u ≠ rstripSlash base := by
  have h := planFold_inv base hrefs ⟨[], [], []⟩
    ⟨List.nodup_nil, by intro u hu; simp at hu, by intro u hu; simp at hu⟩
  exact ⟨h.1, h.2.2⟩

/-- C6 witness: a concrete plan with a repeated href and a root link is
duplicate-free and excludes the root. -/
theorem c6_crawl_plan_witness :
    (final_crawl_list (buildCrawlPlan (S "http://a.com")
        [S "contato", S "contato", S "http://a.com/", S "x"])).Nodup
    ∧ rstripSlash (S "http://a.com/contato") ≠ rstripSlash (S "http://a.com") :=
  ⟨(c6_crawl_plan (S "http://a.com") [S "contato", S "contato", S "http://a.com/", S "x"]).1,
   (c6_crawl_plan (S "http://a.com") [S "contato", S "contato", S "http://a.com/", S "x"]).2
      (S "http://a.com/contato") (by decide)⟩

/-- C9: the streaming follow loop terminates exactly on a line that
strips to the sentinel — everything positioned after the first sentinel
line is ignored, and the loop's return flag is set iff some line strips
to the sentinel (with no sentinel the loop keeps polling forever). -/
theorem c9_follow_sentinel {α : Type} (parse : List Char → Option α) :
    (∀ (pre : List (List Char)) (s : List Char) (post : List (List Char)),
      pstrip s = S "__END__" →
        iter_jsonl_lines_follow parse (pre ++ s :: post)
          = ((iter_jsonl_lines_follow parse pre).1, true))
    ∧ ∀ lines : List (List Char),
        (iter_jsonl_lines_follow parse lines).2 = true
          ↔ ∃ l, l ∈ lines ∧ pstrip l = S "__END__" := by
  have hne : (S "__END__" : List Char) ≠ [] := by decide
  constructor
  · intro pre
    induction pre with
    | nil =>
      intro s post h
      simp [iter_jsonl_lines_follow, h, hne]
    | cons l t ih =>
      intro s post h
      rw [List.cons_append]
      by_cases h0 : pstrip l = []
      · simp only [iter_jsonl_lines_follow, if_pos h0]
        exact ih s post h
      · by_cases hsent : pstrip l = S "__END__"
        · simp only [iter_jsonl_lines_follow, if_neg h0, if_pos hsent]
        · cases hp : parse (pstrip l) with
          | none =>
            simp only [iter_jsonl_lines_follow, if_neg h0, if_neg hsent, hp]
            exact ih s post h
          | some v =>
            simp only [iter_jsonl_lines_follow, if_neg h0, if_neg hsent, hp]
            rw [ih s post h]
  · intro lines
    induction lines with
    | nil => simp [iter_jsonl_lines_follow]
    | cons l t ih =>
      simp only [iter_jsonl_lines_follow]
      by_cases h0 : pstrip l = []
      · simp only [if_pos h0, ih, List.mem_cons]
        constructor
        · rintro ⟨x, hx, hs⟩; exact ⟨x, Or.inr hx, hs⟩
        · rintro ⟨x, hx | hx, hs⟩
          · subst hx; rw [h0] at hs; exact absurd hs.symm hne
          · exact ⟨x, hx, hs⟩
      · simp only [if_neg h0]
        by_cases hsent : pstrip l = S "__END__"
        · simp only [if_pos hsent]
          constructor
          · intro _; exact ⟨l, List.mem_cons_self _ _, hsent⟩
          · intro _; trivial
        · simp only [if_neg hsent]
          have hiff : (∃ x, x ∈ t ∧ pstrip x = S "__END__")
              ↔ ∃ x, x ∈ l :: t ∧ pstrip x = S "__END__" := by
            constructor
            · rintro ⟨x, hx, hs⟩; exact ⟨x, List.mem_cons_of_mem _ hx, hs⟩
            · rintro ⟨x, hx, hs⟩
              rcases List.mem_cons.mp hx with hx | hx
              · subst hx; exact absurd hs hsent
              · exact ⟨x, hx, hs⟩
          cases hp : parse (pstrip l) with
          | none =>
            rw [← hiff]
            exact ih
          | some v =>
            rw [← hiff]
            exact ih

/-- C9 witness: lines after a sentinel are never yielded and the loop
terminates there. -/
theorem c9_follow_sentinel_witness :
    iter_jsonl_lines_follow (fun s : List Char => some s)
        ([S "lead-a"] ++ (S "__END__") :: [S "lead-b"]) = ([S "lead-a"], true) :=
  ((c9_follow_sentinel (fun s : List Char => some s)).1
    [S "lead-a"] (S "__END__") [S "lead-b"] (by decide)).trans (by decide)

mutual
/-- After the scrub, no dictionary value reachable through dictionaries
and lists is a string containing the token. -/
theorem tokenFreeDV_clean : (j : Json) → tokenFreeDV (clean_recursive j) = true
  | .null => rfl
  | .boolean _ => rfl
  | .number _ => rfl
  | .str _ => rfl
  | .obj kvs => by
    simp only [clean_recursive, tokenFreeDV]
    exact tokenFreeDVObj_clean kvs
  | .arr xs => by
    simp only [clean_recursive, tokenFreeDV]
    exact tokenFreeDVArr_clean xs
/-- `tokenFreeDV_clean` for array elements. -/
theorem tokenFreeDVArr_clean : (xs : JArr) → tokenFreeDVArr (cleanArr xs) = true
  | .nil => rfl
  | .cons x xs => by
    simp only [cleanArr, tokenFreeDVArr, Bool.and_eq_true]
    exact ⟨tokenFreeDV_clean x, tokenFreeDVArr_clean xs⟩
/-- `tokenFreeDV_clean` for object items. -/
theorem tokenFreeDVObj_clean : (kvs : JObj) → tokenFreeDVObj (cleanObj kvs) = true
  | .nil => rfl
  | .cons k (.str s) rest => by
    by_cases hs : hasPendente s = true
    · simp only [cleanObj, if_pos hs, tokenFreeDVObj, tokenFreeDV, Bool.true_and]
      exact tokenFreeDVObj_clean rest
    · simp only [cleanObj, if_neg hs, tokenFreeDVObj, Bool.and_eq_true]
      exact ⟨by simp [Bool.not_eq_true] at hs ⊢; exact hs, tokenFreeDVObj_clean rest⟩
  | .cons k .null rest => by
    simp only [cleanObj, clean_recursive, tokenFreeDVObj, tokenFreeDV, Bool.true_and]
    exact tokenFreeDVObj_clean rest
  | .cons k (.boolean b) rest => by
    simp only [cleanObj, clean_recursive, tokenFreeDVObj, tokenFreeDV, Bool.true_and]
    exact tokenFreeDVObj_clean rest
  | .cons k (.number n) rest => by
    simp only [cleanObj, clean_recursive, tokenFreeDVObj, tokenFreeDV, Bool.true_and]
    exact tokenFreeDVObj_clean rest
  | .cons k (.obj kvs) rest => by
    simp only [cleanObj, clean_recursive, tokenFreeDVObj, Bool.and_eq_true]
    refine ⟨?_, tokenFreeDVObj_clean rest⟩
    simpa only [clean_recursive, tokenFreeDV] using tokenFreeDVObj_clean kvs
  | .cons k (.arr xs) rest => by
    simp only [cleanObj, clean_recursive, tokenFreeDVObj, Bool.and_eq_true]
    refine ⟨?_, tokenFreeDVObj_clean rest⟩
    simpa only [clean_recursive, tokenFreeDV] using tokenFreeDVArr_clean xs
end

mutual
/-- On values with no token anywhere, the scrub is the identity. -/
theorem clean_id_of_tokenFree : (j : Json) → tokenFreeAll j = true → clean_recursive j = j
  | .null, _ => rfl
  | .boolean _, _ => rfl
  | .number _, _ => rfl
  | .str _, _ => rfl
  | .obj kvs, h => by
    simp only [clean_recursive, Json.obj.injEq]
    exact cleanObj_id_of_tokenFree kvs (by simpa only [tokenFreeAll] using h)
  | .arr xs, h => by
    simp only [clean_recursive, Json.arr.injEq]
    exact cleanArr_id_of_tokenFree xs (by simpa only [tokenFreeAll] using h)
/-- `clean_id_of_tokenFree` for array elements. -/
theorem cleanArr_id_of_tokenFree : (xs : JArr) → tokenFreeAllArr xs = true → cleanArr xs = xs
  | .nil, _ => rfl
  | .cons x xs, h => by
    simp only [tokenFreeAllArr, Bool.and_eq_true] at h
    simp only [cleanArr, JArr.cons.injEq]
    exact ⟨clean_id_of_tokenFree x h.1, cleanArr_id_of_tokenFree xs h.2⟩
/-- `clean_id_of_tokenFree` for object items. -/
theorem cleanObj_id_of_tokenFree : (kvs : JObj) → tokenFreeAllObj kvs = true → cleanObj kvs = kvs
  | .nil, _ => rfl
  | .cons k (.str s) rest, h => by
    simp only [tokenFreeAllObj, tokenFreeAll, Bool.and_eq_true, Bool.not_eq_true'] at h
    have he : cleanObj (JObj.cons k (Json.str s) rest)
        = JObj.cons k (if hasPendente s then Json.null else Json.str s) (cleanObj rest) := rfl
    rw [he, if_neg (by simp [h.1]), cleanObj_id_of_tokenFree rest h.2]
  | .cons k .null rest, h => by
    simp only [tokenFreeAllObj, Bool.and_eq_true] at h
    have he : cleanObj (JObj.cons k Json.null rest)
        = JObj.cons k (clean_recursive Json.null) (cleanObj rest) := rfl
    rw [he, clean_id_of_tokenFree Json.null h.1, cleanObj_id_of_tokenFree rest h.2]
  | .cons k (.boolean b) rest, h => by
    simp only [tokenFreeAllObj, Bool.and_eq_true] at h
    have he : cleanObj (JObj.cons k (Json.boolean b) rest)
        = JObj.cons k (clean_recursive (Json.boolean b)) (cleanObj rest) := rfl
    rw [he, clean_id_of_tokenFree (Json.boolean b) h.1, cleanObj_id_of_tokenFree rest h.2]
  | .cons k (.number n) rest, h => by
    simp only [tokenFreeAllObj, Bool.and_eq_true] at h
    have he : cleanObj (JObj.cons k (Json.number n) rest)
        = JObj.cons k (clean_recursive (Json.number n)) (cleanObj rest) := rfl
    rw [he, clean_id_of_tokenFree (Json.number n) h.1, cleanObj_id_of_tokenFree rest h.2]
  | .cons k (.obj inner) rest, h => by
    simp only [tokenFreeAllObj, Bool.and_eq_true] at h
    have he : cleanObj (JObj.cons k (Json.obj inner) rest)
        = JObj.cons k (clean_recursive (Json.obj inner)) (cleanObj rest) := rfl
    rw [he, clean_id_of_tokenFree (Json.obj inner) h.1, cleanObj_id_of_tokenFree rest h.2]
  | .cons k (.arr xs) rest, h => by
    simp only [tokenFreeAllObj, Bool.and_eq_true] at h
    have he : cleanObj (JObj.cons k (Json.arr xs) rest)
        = JObj.cons k (clean_recursive (Json.arr xs)) (cleanObj rest) := rfl
    rw [he, clean_id_of_tokenFree (Json.arr xs) h.1, cleanObj_id_of_tokenFree rest h.2]
end

/-- C3 counterexample: the claim states that a string element of a
sequence containing the token is replaced by the absence marker; on
`{"a": ["Pendente"]}` the scrub leaves the list element untouched — the
output is the unchanged input, not the scrubbed variant. -/
theorem c3_list_element_not_scrubbed :
    clean_recursive (Json.obj (JObj.cons (S "a")
        (Json.arr (JArr.cons (Json.str (S "Pendente")) JArr.nil)) JObj.nil))
      = Json.obj (JObj.cons (S "a")
        (Json.arr (JArr.cons (Json.str (S "Pendente")) JArr.nil)) JObj.nil)
    ∧ clean_recursive (Json.obj (JObj.cons (S "a")
        (Json.arr (JArr.cons (Json.str (S "Pendente")) JArr.nil)) JObj.nil))
      ≠ Json.obj (JObj.cons (S "a")
        (Json.arr (JArr.cons Json.null JArr.nil)) JObj.nil) := by
  constructor
  · rfl
  · decide

/-- C3 (amended): the recursive scrub replaces every dictionary-value
string that contains the pending token with the absence marker, at any
nesting depth reachable through dictionaries and lists, and leaves every
token-free structure unchanged; strings that are elements of sequences
(or stand at the root) are not replaced. -/
theorem c3_clean_recursive :
    (∀ j : Json, tokenFreeDV (clean_recursive j) = true)
    ∧ (∀ j : Json, tokenFreeAll j = true → clean_recursive j = j)
    ∧ (∀ (k s : List Char) (rest : JObj), hasPendente s = true →
        cleanObj (JObj.cons k (Json.str s) rest) = JObj.cons k Json.null (cleanObj rest))
    ∧ (∀ (xs : JArr), clean_recursive (Json.arr xs) = Json.arr (cleanArr xs)
        ∧ ∀ s : List Char, cleanArr (JArr.cons (Json.str s) xs)
            = JArr.cons (Json.str s) (cleanArr xs)) := by
  refine ⟨tokenFreeDV_clean, clean_id_of_tokenFree, ?_, ?_⟩
  · intro k s rest hs
    simp only [cleanObj, if_pos hs]
  · intro xs
    exact ⟨rfl, fun s => rfl⟩

/-- C3 witness: the scrub at the spec's example, a nested dictionary
value equal to the token, and identity on a token-free profile. -/
theorem c3_clean_recursive_witness :
    cleanObj (JObj.cons (S "b") (Json.str (S "Pendente")) JObj.nil)
      = JObj.cons (S "b") Json.null (cleanObj JObj.nil)
    ∧ clean_recursive (Json.str (S "ok")) = Json.str (S "ok")
    ∧ tokenFreeDV (clean_recursive (Json.obj (JObj.cons (S "a")
        (Json.obj (JObj.cons (S "b") (Json.str (S "Pendente")) JObj.nil)) JObj.nil))) = true :=
  ⟨c3_clean_recursive.2.2.1 (S "b") (S "Pendente") JObj.nil (by decide),
   c3_clean_recursive.2.1 (Json.str (S "ok")) (by decide),
   c3_clean_recursive.1 _⟩

/-- A nonempty optional string is truthy. -/
theorem ccTruthy_some {cc : List Char} (h : cc ≠ []) : ccTruthy (some cc) = true := by
  cases cc with
  | nil => exact absurd rfl h
  | cons a t => rfl

/-- C4 counterexample: with hint FR on a text containing a CNPJ, the
hint's pattern does not match, the claim then demands the BR fallback —
which does match this text — yet the function returns no match at all,
because the BR fallback is skipped for any non-BR hint. -/
theorem c4_hint_skips_br_fallback :
    extract_tax_id (S "12.345.678/0001-90") (some (S "FR")) = none
    ∧ rsearch false brPattern (S "12.345.678/0001-90") = some (S "12.345.678/0001-90")
    ∧ (∀ e, lookupPattern (upperStr (S "FR")) = some e →
        rsearch true e.rgx (S "12.345.678/0001-90") = none) := by
  refine ⟨by decide, by decide, ?_⟩
  intro e he
  have : e = ⟨⟨false, [rLit 'F', rLit 'R', rDigit 11], false⟩, S "VAT",
      S "Numéro de TVA intracommunautaire"⟩ := by
    have : lookupPattern (upperStr (S "FR")) = some ⟨⟨false, [rLit 'F', rLit 'R', rDigit 11],
        false⟩, S "VAT", S "Numéro de TVA intracommunautaire"⟩ := by decide
    rw [this] at he
    exact (Option.some_inj.mp he).symm
  subst this
  decide

/-- C4 (amended): a nonempty hint present in the table is tried first
(case-insensitively) and a match returns immediately; the BR/CNPJ
fallback is consulted only when no nonempty hint was supplied or the
hint is BR; for a nonempty non-BR hint whose pattern found nothing (or
which has no table entry) the function skips the BR fallback and goes
directly to the generic two-letter-prefix + 9-to-12-digit pattern on the
uppercased text; at most one match is ever returned. -/
theorem c4_extract_tax_id (text : List Char) (ht : text ≠ []) :
    (∀ (cc : List Char) (e : TaxEntry) (v : List Char), cc ≠ [] →
      lookupPattern (upperStr cc) = some e → rsearch true e.rgx text = some v →
        extract_tax_id text (some cc) = some ⟨e.ttype, v, upperStr cc, e.tname⟩)
    ∧ (∀ v : List Char, rsearch false brPattern text = some v →
        extract_tax_id text none
          = some ⟨S "CNPJ", v, S "BR", S "Cadastro Nacional da Pessoa Jurídica"⟩)
    ∧ (rsearch false brPattern text = none →
        extract_tax_id text none = (rsearch false genericVatPattern (upperStr text)).map
          (fun v => ⟨S "VAT", v, v.take 2, S "VAT Number"⟩))
    ∧ (∀ cc : List Char, cc ≠ [] → upperStr cc ≠ S "BR" →
        (∀ e, lookupPattern (upperStr cc) = some e → rsearch true e.rgx text = none) →
        extract_tax_id text (some cc) = (rsearch false genericVatPattern (upperStr text)).map
          (fun v => ⟨S "VAT", v, v.take 2, S "VAT Number"⟩)) := by
  refine ⟨?_, ?_, ?_, ?_⟩
  · intro cc e v hcc hl hs
    simp only [extract_tax_id, if_neg ht, ccTruthy_some hcc, if_true, hl, hs]
  · intro v hbr
    simp [extract_tax_id, if_neg ht, ccTruthy, hbr]
  · intro hbr
    cases hg : rsearch false genericVatPattern (upperStr text) with
    | none => simp [extract_tax_id, if_neg ht, ccTruthy, hbr, hg]
    | some v => simp [extract_tax_id, if_neg ht, ccTruthy, hbr, hg]
  · intro cc hcc hbr hfail
    cases hl : lookupPattern (upperStr cc) with
    | none =>
      cases hg : rsearch false genericVatPattern (upperStr text) with
      | none => simp [extract_tax_id, if_neg ht, ccTruthy_some hcc, hl, hbr, hg]
      | some v => simp [extract_tax_id, if_neg ht, ccTruthy_some hcc, hl, hbr, hg]
    | some e =>
      have hs := hfail e hl
      cases hg : rsearch false genericVatPattern (upperStr text) with
      | none => simp [extract_tax_id, if_neg ht, ccTruthy_some hcc, hl, hs, hbr, hg]
      | some v => simp [extract_tax_id, if_neg ht, ccTruthy_some hcc, hl, hs, hbr, hg]

/-- C4 witness: a US hint with a matching EIN pattern returns that match
immediately, and with no hint the BR fallback is used. -/
theorem c4_extract_tax_id_witness :
    extract_tax_id (S "ein 12-3456789") (some (S "US"))
      = some ⟨S "EIN", S "12-3456789", S "US", S "Employer Identification Number"⟩
    ∧ extract_tax_id (S "cnpj 12.345.678/0001-90") none
      = some ⟨S "CNPJ", S "12.345.678/0001-90", S "BR",
          S "Cadastro Nacional da Pessoa Jurídica"⟩ :=
  ⟨(c4_extract_tax_id (S "ein 12-3456789") (by decide)).1 (S "US")
      ⟨⟨false, [rDigit 2, rLit '-', rDigit 7], false⟩, S "EIN",
        S "Employer Identification Number"⟩ (S "12-3456789")
      (by decide) (by decide) (by decide),
   (c4_extract_tax_id (S "cnpj 12.345.678/0001-90") (by decide)).2.1
      (S "12.345.678/0001-90") (by decide)⟩

/-- The retry loop never issues more requests than it has fuel. -/
theorem hunterLoop_requests_le (verify : List Char → Option (List Char))
    (resps : Nat → HunterResp) :
    ∀ (fuel a : Nat), (hunterLoop verify resps a fuel).requests ≤ fuel := by
  intro fuel
  induction fuel with
  | zero => intro a; exact Nat.le_refl 0
  | succ n ih =>
    intro a
    simp only [hunterLoop]
    split
    · exact Nat.le_add_left 1 n
    · split
      · exact Nat.succ_le_succ (ih (a + 1))
      · exact Nat.le_add_left 1 n

/-- Every request after the first was triggered by a 429 on the request
before it. -/
theorem hunterLoop_follow_on_429 (verify : List Char → Option (List Char))
    (resps : Nat → HunterResp) :
    ∀ (fuel a k : Nat), k + 1 < (hunterLoop verify resps a fuel).requests →
      (resps (a + k)).status = 429 := by
  intro fuel
  induction fuel with
  | zero => intro a k h; simp [hunterLoop] at h
  | succ n ih =>
    intro a k h
    simp only [hunterLoop] at h
    by_cases h200 : (resps a).status = 200
    · simp only [if_pos h200] at h; omega
    · simp only [if_neg h200] at h
      by_cases h429 : (resps a).status = 429
      · simp only [if_pos h429] at h
        cases k with
        | zero => simpa using h429
        | succ k' =>
          have : k' + 1 < (hunterLoop verify resps (a + 1) n).requests := by omega
          have := ih (a + 1) k' this
          have harith : a + 1 + k' = a + (k' + 1) := by omega
          rwa [harith] at this
      · simp only [if_neg h429] at h; omega

/-- Each sleep corresponds to a 429 and is the parsed Retry-After value
when present, else the exponential backoff. -/
theorem hunterLoop_sleeps (verify : List Char → Option (List Char))
    (resps : Nat → HunterResp) :
    ∀ (fuel a k : Nat), k < (hunterLoop verify resps a fuel).sleeps.length →
      (resps (a + k)).status = 429
      ∧ (hunterLoop verify resps a fuel).sleeps.get? k
          = some (waitSeconds (resps (a + k)).retryAfter (a + k + 1)) := by
  intro fuel
  induction fuel with
  | zero => intro a k h; simp [hunterLoop] at h
  | succ n ih =>
    intro a k h
    simp only [hunterLoop] at h ⊢
    by_cases h200 : (resps a).status = 200
    · simp only [if_pos h200] at h; simp at h
    · simp only [if_neg h200] at h ⊢
      by_cases h429 : (resps a).status = 429
      · simp only [if_pos h429] at h ⊢
        cases k with
        | zero => exact ⟨by simpa using h429, rfl⟩
        | succ k' =>
          simp only [List.length_cons] at h
          have hk' : k' < (hunterLoop verify resps (a + 1) n).sleeps.length := by omega
          have := ih (a + 1) k' hk'
          have harith : a + 1 + k' = a + (k' + 1) := by omega
          rw [harith] at this
          exact ⟨this.1, by simpa using this.2⟩
      · simp only [if_neg h429] at h; simp at h

/-- Exhausting the attempts on consecutive 429s yields an empty result. -/
theorem hunterLoop_exhausted (verify : List Char → Option (List Char))
    (resps : Nat → HunterResp) :
    ∀ (fuel a : Nat), (∀ k, k < fuel → (resps (a + k)).status = 429) →
      (hunterLoop verify resps a fuel).emails = []
      ∧ (hunterLoop verify resps a fuel).requests = fuel := by
  intro fuel
  induction fuel with
  | zero => intro a _; exact ⟨rfl, rfl⟩
  | succ n ih =>
    intro a hall
    have h429 : (resps a).status = 429 := by simpa using hall 0 (Nat.succ_pos n)
    have h200 : ¬(resps a).status = 200 := by omega
    simp only [hunterLoop, if_neg h200, if_pos h429]
    have hrest := ih (a + 1) (fun k hk => by
      have := hall (k + 1) (by omega)
      have harith : a + (k + 1) = a + 1 + k := by omega
      rwa [harith] at this)
    exact ⟨hrest.1, by rw [hrest.2]⟩

/-- A status other than 200 and 429 aborts at once with an empty result. -/
theorem hunterLoop_abort (verify : List Char → Option (List Char))
    (resps : Nat → HunterResp) :
    ∀ (fuel a j : Nat), j < fuel → (∀ k, k < j → (resps (a + k)).status = 429) →
      (resps (a + j)).status ≠ 200 → (resps (a + j)).status ≠ 429 →
      (hunterLoop verify resps a fuel).emails = []
      ∧ (hunterLoop verify resps a fuel).requests = j + 1 := by
  intro fuel
  induction fuel with
  | zero => intro a j hj; omega
  | succ n ih =>
    intro a j hj hpre h200 h429
    cases j with
    | zero =>
      simp only [Nat.add_zero] at h200 h429
      simp only [hunterLoop, if_neg h200, if_neg h429]
      exact ⟨trivial, trivial⟩
    | succ j' =>
      have hfirst : (resps a).status = 429 := by simpa using hpre 0 (Nat.succ_pos j')
      have hfirst200 : ¬(resps a).status = 200 := by omega
      simp only [hunterLoop, if_neg hfirst200, if_pos hfirst]
      have harith : a + (j' + 1) = a + 1 + j' := by omega
      rw [harith] at h200 h429
      have hrest := ih (a + 1) j' (by omega)
        (fun k hk => by
          have := hpre (k + 1) (by omega)
          have h2 : a + (k + 1) = a + 1 + k := by omega
          rwa [h2] at this) h200 h429
      exact ⟨hrest.1, by rw [hrest.2]⟩

/-- C5: email discovery issues at most 3 requests per domain; a follow-up
request happens only after a 429; each retry is preceded by a sleep of
exactly the parsed Retry-After value when the header is present, else
the exponential backoff 2^attempt; three 429s exhaust the attempts with
an empty result, and any status other than 200 and 429 aborts at once
with an empty result and no further request. -/
theorem c5_hunter_retry (verify : List Char → Option (List Char)) (domain : List Char)
    (resps : Nat → HunterResp) :
    (fetch_hunter_emails verify domain resps).requests ≤ 3
    ∧ (∀ k, k + 1 < (fetch_hunter_emails verify domain resps).requests →
        (resps k).status = 429)
    ∧ (∀ k, k < (fetch_hunter_emails verify domain resps).sleeps.length →
        (resps k).status = 429
        ∧ (∀ s n, (resps k).retryAfter = some s → pyIntNat? s = some n →
            (fetch_hunter_emails verify domain resps).sleeps.get? k = some n)
        ∧ ((resps k).retryAfter = none →
            (fetch_hunter_emails verify domain resps).sleeps.get? k = some (2 ^ (k + 1))))
    ∧ (hunterBlacklisted domain = false → (∀ k, k < 3 → (resps k).status = 429) →
        (fetch_hunter_emails verify domain resps).emails = []
        ∧ (fetch_hunter_emails verify domain resps).requests = 3)
    ∧ (hunterBlacklisted domain = false → ∀ j, j < 3 →
        (∀ k, k < j → (resps k).status = 429) →
        (resps j).status ≠ 200 → (resps j).status ≠ 429 →
        (fetch_hunter_emails verify domain resps).emails = []
        ∧ (fetch_hunter_emails verify domain resps).requests = j + 1) := by
  by_cases hb : hunterBlacklisted domain = true
  · refine ⟨?_, ?_, ?_, ?_, ?_⟩ <;>
      simp [fetch_hunter_emails, hb]
  · have hb' : hunterBlacklisted domain = false := by simpa using hb
    have hfe : fetch_hunter_emails verify domain resps = hunterLoop verify resps 0 3 := by
      simp [fetch_hunter_emails, hb']
    refine ⟨?_, ?_, ?_, ?_, ?_⟩
    · rw [hfe]; exact hunterLoop_requests_le verify resps 3 0
    · intro k hk
      rw [hfe] at hk
      simpa using hunterLoop_follow_on_429 verify resps 3 0 k hk
    · intro k hk
      rw [hfe] at hk
      have h := hunterLoop_sleeps verify resps 3 0 k hk
      simp only [Nat.zero_add] at h
      refine ⟨h.1, ?_, ?_⟩
      · intro s n hs hn
        have hsne : s.isEmpty = false := by
          cases s with
          | nil => simp [pyIntNat?, pstrip] at hn
          | cons c t => rfl
        rw [hfe, h.2, hs]
        simp [waitSeconds, hsne, hn]
      · intro hnone
        rw [hfe, h.2, hnone]
        simp [waitSeconds]
    · intro _ hall
      rw [hfe]
      exact hunterLoop_exhausted verify resps 3 0 (fun k hk => by simpa using hall k hk)
    · intro _ j hj hpre h200 h429
      rw [hfe]
      exact hunterLoop_abort verify resps 3 0 j hj
        (fun k hk => by simpa using hpre k hk) (by simpa using h200) (by simpa using h429)

/-- Concrete verifier for the C5 witness. -/
def wVerify : List Char → Option (List Char) := fun _ => none

/-- Concrete response schedule for the C5 witness: a 429 with
Retry-After 2, then a 404. -/
def wResps : Nat → HunterResp := fun n =>
  if n = 0 then ⟨429, some (S "2"), []⟩ else ⟨404, none, []⟩

/-- C5 witness: on a 429 with Retry-After 2 followed by a 404, the run
sleeps 2 seconds, issues exactly 2 requests and returns no emails. -/
theorem c5_hunter_retry_witness :
    (fetch_hunter_emails wVerify (S "example.com") wResps).emails = []
    ∧ (fetch_hunter_emails wVerify (S "example.com") wResps).requests = 2
    ∧ (fetch_hunter_emails wVerify (S "example.com") wResps).sleeps.get? 0 = some 2 := by
  have h := c5_hunter_retry wVerify (S "example.com") wResps
  have habort := h.2.2.2.2 (by decide) 1 (by decide)
    (fun k hk => by
      have hk0 : k = 0 := by omega
      subst hk0
      rfl)
    (by decide) (by decide)
  have hsleep := h.2.2.1 0 (by decide)
  exact ⟨habort.1, habort.2, hsleep.2.1 (S "2") 2 rfl (by decide)⟩

/-- C1: against the claim, a streaming run over a queue that already
holds one lead line before the sentinel processes that lead twice — the
backfill pass drains it, then the tail pass reopens the file at offset 0
and yields it again — so the output holds two profiles for the single
lead (here with parsing and fusion embedded as identities). -/
theorem c1_stream_duplicates :
    streamModeOutput (fun s : List Char => some s) (fun l : List Char => some l)
        [S "lead-1", S "__END__"] = [S "lead-1", S "lead-1"]
    ∧ iter_jsonl_objects (fun s : List Char => some s) [S "lead-1", S "__END__"]
        = [S "lead-1"] := by
  exact ⟨rfl, rfl⟩

/-- C2: against the claim, a bounded (.json) run over two valid entries
with no usable website fuses and appends a profile only for the last
entry — the per-item loop body ends after two assignments and the whole
processing block runs once, after the loop — while the stream branches'
per-item logic (embedded as `streamRunLeads`) emits one profile per
entry. -/
theorem c2_bounded_last_only :
    hasWebsite ⟨S "Empresa A", none⟩ = false
    ∧ hasWebsite ⟨S "Empresa B", none⟩ = false
    ∧ boundedModeOutput (fun l : Lead => some l.nome)
        [⟨S "Empresa A", none⟩, ⟨S "Empresa B", none⟩] = [S "Empresa B"]
    ∧ streamRunLeads (fun l : Lead => some l.nome)
        [⟨S "Empresa A", none⟩, ⟨S "Empresa B", none⟩] = [S "Empresa A", S "Empresa B"] := by
  exact ⟨rfl, rfl, rfl, rfl⟩

end CrawlScraper
